import Mathlib

/-!
Verification of the live-auction engine (backend AuctionManager and
SocketHandler monitoring loop).

The TypeScript source is embedded shallowly: the in-memory registry
(`Map<string, AuctionItem>`) becomes an insertion-ordered list of items,
`Date.now()` becomes an explicit `now : Int` parameter, and
`Math.floor(Math.random() * 6) + 3` becomes `rand i % 6 + 3` for an
arbitrary stream `rand : Nat → Nat` of random draws.  Stateful methods
become functions `State → Result × State`.  A second, reference-passing
embedding (`HeapMgr`) models JavaScript object identity for the claims
about snapshots versus live references.
-/

/-- Auction item record, field for field from `AuctionItem` in the shared
types module. -/
structure AuctionItem where
  id : String
  title : String
  description : String
  startingPrice : Int
  currentBid : Int
  currentBidder : Option String
  auctionEndTime : Int
  imageUrl : String
deriving DecidableEq, Repr

/-- Bid response record from the shared types module (`success`, `message`,
optional `item` snapshot, optional `error` classifier). -/
structure BidResponse where
  success : Bool
  message : String
  item : Option AuctionItem := none
  error : Option String := none
deriving DecidableEq, Repr

/-- State of the `AuctionManager` class: the item registry (the `Map`
keyed by item id, kept in insertion order) and the nullable global
barrier timestamp `allAuctionsEndTime`. -/
structure AuctionManager where
  items : List AuctionItem
  allAuctionsEndTime : Option Int
deriving DecidableEq, Repr

/-- `getAllItems`: `Array.from(this.items.values())` in value form — the
sequence of items in registry order. -/
def getAllItems (st : AuctionManager) : List AuctionItem :=
  st.items

/-- `getItem` / `this.items.get(itemId)`: first (unique) item with the
given id. -/
def getItem (st : AuctionManager) (itemId : String) : Option AuctionItem :=
  st.items.find? (fun it => it.id == itemId)

/-- In-place mutation of the object held by the `Map` under a key:
replace the first entry whose id matches (keys are unique in a `Map`). -/
def updateFirst (l : List AuctionItem) (itemId : String) (v : AuctionItem) :
    List AuctionItem :=
  match l with
  | [] => []
  | it :: rest =>
      if it.id = itemId then v :: rest else it :: updateFirst rest itemId v

/-- `executeBid(itemId, bidAmount, userId, username)`: the serialized bid
evaluation.  Checks, in source order: item exists, auction not ended,
amount at least `currentBid + 10`, bidder not already leading; then
mutates the item and returns a snapshot. -/
def executeBid (now : Int) (itemId : String) (bidAmount : Int)
    (userId : String) (st : AuctionManager) : BidResponse × AuctionManager :=
  match getItem st itemId with
  | none =>
      (⟨false, "Item not found", none, some "ITEM_NOT_FOUND"⟩, st)
  | some item =>
      if item.auctionEndTime ≤ now then
        (⟨false, "Auction has ended", none, some "AUCTION_ENDED"⟩, st)
      else if bidAmount < item.currentBid + 10 then
        (⟨false, "Bid must be at least $" ++ toString (item.currentBid + 10),
          none, some "BID_TOO_LOW"⟩, st)
      else if item.currentBidder = some userId then
        (⟨false, "You are already the highest bidder", none,
          some "ALREADY_HIGHEST_BIDDER"⟩, st)
      else
        let item' := { item with currentBid := bidAmount,
                                 currentBidder := some userId }
        (⟨true, "Bid placed successfully", some item', none⟩,
         { st with items := updateFirst st.items itemId item' })

/-- Outcome of one dequeued evaluation as seen by `processBid`'s chain
boundary: either a normal response with the post-state, or a thrown fault
carrying the fault's message and the state at the time of the throw. -/
inductive EvalOutcome where
  | ok : BidResponse → AuctionManager → EvalOutcome
  | fault : String → AuctionManager → EvalOutcome
deriving DecidableEq, Repr

/-- The `.catch` installed by `processBid` around each dequeued
evaluation: a fault resolves the chain with
`{success: false, message: 'Internal server error', error: error.message}`. -/
def chainCatch (outcome : EvalOutcome) : BidResponse × AuctionManager :=
  match outcome with
  | .ok r st => (r, st)
  | .fault msg st =>
      (⟨false, "Internal server error", none, some msg⟩, st)

/-- `getExpiredAuctions`: ids of items whose `auctionEndTime` has passed. -/
def getExpiredAuctions (now : Int) (st : AuctionManager) : List String :=
  (st.items.filter (fun it => it.auctionEndTime ≤ now)).map (fun it => it.id)

/-- `areAllAuctionsEnded`: true when no item is still active. -/
def areAllAuctionsEnded (now : Int) (st : AuctionManager) : Bool :=
  st.items.all (fun it => it.auctionEndTime ≤ now)

/-- `getRestartCountdown`: clears the barrier and returns null while some
item is active; otherwise records the barrier on first observation and
returns `max 0 ((allEndedAt + 30000) - now)`. -/
def getRestartCountdown (now : Int) (st : AuctionManager) :
    Option Int × AuctionManager :=
  if areAllAuctionsEnded now st then
    let allEndedAt := st.allAuctionsEndTime.getD now
    (some (max 0 (allEndedAt + 30000 - now)),
     { st with allAuctionsEndTime := some allEndedAt })
  else
    (none, { st with allAuctionsEndTime := none })

/-- The reset loop body shared by the auto and manual all-item resets:
each item gets `currentBid = startingPrice`, `currentBidder = null` and a
fresh end time `now + (rand i % 6 + 3) minutes`, where `rand i % 6 + 3`
models `Math.floor(Math.random() * 6) + 3` for the i-th draw. -/
def resetItemsFrom (rand : Nat → Nat) (now : Int) : Nat → List AuctionItem →
    List AuctionItem
  | _, [] => []
  | i, it :: rest =>
      { it with currentBid := it.startingPrice,
                currentBidder := none,
                auctionEndTime := now + ((rand i % 6 + 3 : Nat) : Int) * 60000 }
        :: resetItemsFrom rand now (i + 1) rest

/-- `autoResetExpiredAuctions`: consults `getRestartCountdown` (which may
itself move the barrier), returns an empty batch unless the countdown has
reached zero, and otherwise resets every item, clears the barrier, and
returns the batch of reset items. -/
def autoResetExpiredAuctions (rand : Nat → Nat) (now : Int)
    (st : AuctionManager) : List AuctionItem × AuctionManager :=
  match getRestartCountdown now st with
  | (none, st') => ([], st')
  | (some t, st') =>
      if 0 < t then ([], st')
      else
        let newItems := resetItemsFrom rand now 0 st'.items
        (newItems, { st' with items := newItems, allAuctionsEndTime := none })

/-- `resetAuction(itemId)`: manual single-item reset to a fixed five
minutes; returns false and changes nothing when the item is unknown. -/
def resetAuction (now : Int) (itemId : String) (st : AuctionManager) :
    Bool × AuctionManager :=
  match getItem st itemId with
  | none => (false, st)
  | some item =>
      let item' := { item with currentBid := item.startingPrice,
                               currentBidder := none,
                               auctionEndTime := now + 300000 }
      (true, { st with items := updateFirst st.items itemId item' })

/-- `resetAllAuctions`: manual reset of every item, unconditional, not
touching the barrier timestamp; returns the batch of reset items. -/
def resetAllAuctions (rand : Nat → Nat) (now : Int) (st : AuctionManager) :
    List AuctionItem × AuctionManager :=
  let newItems := resetItemsFrom rand now 0 st.items
  (newItems, { st with items := newItems })

/-- Events emitted to clients by the monitoring tick. -/
inductive Event where
  | auctionEnded (itemId : String)
  | restartCountdown (allEnded : Bool) (cd : Option Int)
  | allAuctionsReset (items : List AuctionItem)
deriving DecidableEq, Repr

/-- The `forEach` over expired ids in the tick: emit `AUCTION_ENDED` for
each id not yet in the notified set, adding it to the set. -/
def collectEnded (expired : List String) (notified : List String) :
    List Event × List String :=
  match expired with
  | [] => ([], notified)
  | i :: rest =>
      if i ∈ notified then collectEnded rest notified
      else
        let step := collectEnded rest (notified ++ [i])
        (Event.auctionEnded i :: step.1, step.2)

/-- One execution of the `setInterval` body in
`SocketHandler.startAuctionMonitoring`: notify newly expired items, emit
the restart-countdown event, run the coordinated auto-reset and, when a
batch was reset, emit the batched reset event and clear the notified set. -/
def monitorTick (rand : Nat → Nat) (now : Int) (st : AuctionManager)
    (notified : List String) :
    List Event × AuctionManager × List String :=
  let ended := collectEnded (getExpiredAuctions now st) notified
  let cdPair := getRestartCountdown now st
  let allEnded := areAllAuctionsEnded now cdPair.2
  let evs := ended.1 ++ [Event.restartCountdown allEnded cdPair.1]
  let resetPair := autoResetExpiredAuctions rand now cdPair.2
  if 0 < resetPair.1.length then
    (evs ++ [Event.allAuctionsReset resetPair.1], resetPair.2, [])
  else
    (evs, resetPair.2, ended.2)

/-!
Reference-passing embedding of the same class, for the claims about
object identity: the `Map` stores references into a heap of item
objects, `Array.from(this.items.values())` hands out those references,
and the spread `{ ...item }` in a successful bid allocates a fresh
object.
-/

/-- Bid response in the heap embedding: `item` is a reference into the
heap rather than a value. -/
structure BidRespH where
  success : Bool
  message : String
  item : Option Nat := none
  error : Option String := none
deriving DecidableEq, Repr

/-- Heap-embedded manager: `heap` is the object store (address =
index, allocation appends), `itemRefs` the `Map` from id to the stored
object's address. -/
structure HeapMgr where
  heap : List AuctionItem
  itemRefs : List (String × Nat)
  allAuctionsEndTime : Option Int
deriving DecidableEq, Repr

/-- Dereference an object address. -/
def heapRead (h : List AuctionItem) (r : Nat) : Option AuctionItem :=
  h.get? r

/-- Overwrite the object at an address (JavaScript in-place field
mutation). -/
def heapWrite (h : List AuctionItem) (r : Nat) (v : AuctionItem) :
    List AuctionItem :=
  h.set r v

/-- `getAllItems` in the heap embedding: `Array.from(map.values())`
copies the array but its elements are the stored references themselves. -/
def getAllItemsH (m : HeapMgr) : List Nat :=
  m.itemRefs.map (fun p => p.2)

/-- `getItem` in the heap embedding: the stored reference for the id. -/
def getItemH (m : HeapMgr) (itemId : String) : Option Nat :=
  (m.itemRefs.find? (fun p => p.1 == itemId)).map (fun p => p.2)

/-- `executeBid` in the heap embedding: the success path mutates the
registry's object in place and then allocates a fresh object for the
`{ ...item }` snapshot returned in the response. -/
def executeBidH (now : Int) (itemId : String) (bidAmount : Int)
    (userId : String) (m : HeapMgr) : BidRespH × HeapMgr :=
  match getItemH m itemId with
  | none =>
      (⟨false, "Item not found", none, some "ITEM_NOT_FOUND"⟩, m)
  | some r =>
      match heapRead m.heap r with
      | none =>
          (⟨false, "Item not found", none, some "ITEM_NOT_FOUND"⟩, m)
      | some item =>
          if item.auctionEndTime ≤ now then
            (⟨false, "Auction has ended", none, some "AUCTION_ENDED"⟩, m)
          else if bidAmount < item.currentBid + 10 then
            (⟨false, "Bid must be at least $" ++ toString (item.currentBid + 10),
              none, some "BID_TOO_LOW"⟩, m)
          else if item.currentBidder = some userId then
            (⟨false, "You are already the highest bidder", none,
              some "ALREADY_HIGHEST_BIDDER"⟩, m)
          else
            let item' := { item with currentBid := bidAmount,
                                     currentBidder := some userId }
            let h1 := heapWrite m.heap r item'
            (⟨true, "Bid placed successfully", some h1.length, none⟩,
             { m with heap := h1 ++ [item'] })

/-- Well-formedness of the heap embedding: every registry reference
points inside the heap. -/
def heapWF (m : HeapMgr) : Prop :=
  ∀ p ∈ m.itemRefs, p.2 < m.heap.length

instance (m : HeapMgr) : Decidable (heapWF m) := by
  unfold heapWF; infer_instance

/-!
Helper lemmas about the registry list operations.
-/

lemma find?_decomp {l : List AuctionItem} {itemId : String} {item : AuctionItem}
    (h : l.find? (fun it => it.id == itemId) = some item) :
    ∃ pre post, l = pre ++ item :: post ∧ (∀ p ∈ pre, p.id ≠ itemId)
      ∧ item.id = itemId := by
  induction l with
  | nil => simp [List.find?] at h
  | cons x rest ih =>
    by_cases hx : x.id = itemId
    · rw [List.find?_cons_of_pos _ (by simp [hx])] at h
      cases h
      exact ⟨[], rest, rfl, by simp, hx⟩
    · rw [List.find?_cons_of_neg _ (by simp [hx])] at h
      obtain ⟨pre, post, heq, hpre, hid⟩ := ih h
      refine ⟨x :: pre, post, by simp [heq], ?_, hid⟩
      intro p hp
      rcases List.mem_cons.mp hp with rfl | hp'
      · exact hx
      · exact hpre p hp'

lemma updateFirst_append {pre post : List AuctionItem} {itemId : String}
    {item v : AuctionItem} (hpre : ∀ p ∈ pre, p.id ≠ itemId)
    (hid : item.id = itemId) :
    updateFirst (pre ++ item :: post) itemId v = pre ++ v :: post := by
  induction pre with
  | nil => simp [updateFirst, hid]
  | cons x rest ih =>
    have hx : x.id ≠ itemId := hpre x (by simp)
    have := ih (fun p hp => hpre p (List.mem_cons_of_mem x hp))
    simp [updateFirst, hx, this]

lemma find?_id_front {pre : List AuctionItem} {itemId : String}
    {v : AuctionItem} {post : List AuctionItem}
    (hpre : ∀ p ∈ pre, p.id ≠ itemId) (hid : v.id = itemId) :
    (pre ++ v :: post).find? (fun it => it.id == itemId) = some v := by
  induction pre with
  | nil => simp [List.find?_cons_of_pos, hid]
  | cons x rest ih =>
    have hx : x.id ≠ itemId := hpre x (by simp)
    rw [List.cons_append, List.find?_cons_of_neg _ (by simp [hx])]
    exact ih (fun p hp => hpre p (List.mem_cons_of_mem x hp))

lemma find?_updateFirst_other {l : List AuctionItem} {itemId qid : String}
    {v : AuctionItem} (hv : v.id = itemId) (hne : qid ≠ itemId) :
    (updateFirst l itemId v).find? (fun it => it.id == qid)
      = l.find? (fun it => it.id == qid) := by
  induction l with
  | nil => rfl
  | cons x rest ih =>
    by_cases hx : x.id = itemId
    · rw [show updateFirst (x :: rest) itemId v = v :: rest by
        simp [updateFirst, hx]]
      rw [List.find?_cons_of_neg _ (by simp [hv]; exact fun h => hne h.symm),
          List.find?_cons_of_neg _ (by simp [hx]; exact fun h => hne h.symm)]
    · rw [show updateFirst (x :: rest) itemId v = x :: updateFirst rest itemId v
        by simp [updateFirst, hx]]
      by_cases hq : x.id = qid
      · rw [List.find?_cons_of_pos _ (by simp [hq]),
            List.find?_cons_of_pos _ (by simp [hq])]
      · rw [List.find?_cons_of_neg _ (by simp [hq]),
            List.find?_cons_of_neg _ (by simp [hq])]
        exact ih

lemma find?_updateFirst_self {l : List AuctionItem} {itemId : String}
    {v item : AuctionItem} (hv : v.id = itemId)
    (hfound : l.find? (fun it => it.id == itemId) = some item) :
    (updateFirst l itemId v).find? (fun it => it.id == itemId) = some v := by
  obtain ⟨pre, post, rfl, hpre, hid⟩ := find?_decomp hfound
  rw [updateFirst_append hpre hid]
  exact find?_id_front hpre hv

/-- The mutated item of a successful bid: `currentBid = bidAmount`,
`currentBidder = userId`, every other field untouched. -/
def acceptedItem (item : AuctionItem) (bidAmount : Int) (userId : String) :
    AuctionItem :=
  { item with currentBid := bidAmount, currentBidder := some userId }

/-- The shape every reset writes: bid back to the starting price, no
bidder, a fresh end time, every other field untouched. -/
def resetShape (item : AuctionItem) (t : Int) : AuctionItem :=
  { item with currentBid := item.startingPrice, currentBidder := none,
              auctionEndTime := t }

/-- Full case analysis of `executeBid`: either it rejects (success flag
false, state untouched) or it accepts with all four checks passed and the
single registry update. -/
lemma executeBid_cases (now : Int) (itemId : String) (bidAmount : Int)
    (userId : String) (st : AuctionManager) :
    ((executeBid now itemId bidAmount userId st).1.success = false
      ∧ (executeBid now itemId bidAmount userId st).2 = st)
    ∨ ((executeBid now itemId bidAmount userId st).1.success = true
      ∧ ∃ item, getItem st itemId = some item
        ∧ now < item.auctionEndTime
        ∧ item.currentBid + 10 ≤ bidAmount
        ∧ item.currentBidder ≠ some userId
        ∧ executeBid now itemId bidAmount userId st
          = (⟨true, "Bid placed successfully",
              some (acceptedItem item bidAmount userId), none⟩,
             { st with items :=
                updateFirst st.items itemId (acceptedItem item bidAmount userId) })) := by
  unfold executeBid
  cases hf : getItem st itemId with
  | none => exact Or.inl ⟨rfl, rfl⟩
  | some item =>
    by_cases h1 : item.auctionEndTime ≤ now
    · exact Or.inl ⟨by simp [h1], by simp [h1]⟩
    · by_cases h2 : bidAmount < item.currentBid + 10
      · exact Or.inl ⟨by simp [h1, h2], by simp [h1, h2]⟩
      · by_cases h3 : item.currentBidder = some userId
        · exact Or.inl ⟨by simp [h1, h2, h3], by simp [h1, h2, h3]⟩
        · exact Or.inr ⟨by simp [h1, h2, h3], item, rfl, by omega, by omega, h3,
            by simp [h1, h2, h3, acceptedItem]⟩

/-!
Data-model invariant and bid-sequence monotonicity.
-/

/-- The spec's per-item invariant: `currentBid ≥ startingPrice`, and
`currentBidder` is non-null exactly when `currentBid > startingPrice`. -/
def itemInvariant (it : AuctionItem) : Prop :=
  it.startingPrice ≤ it.currentBid
    ∧ (it.currentBidder ≠ none ↔ it.startingPrice < it.currentBid)

instance (it : AuctionItem) : Decidable (itemInvariant it) := by
  unfold itemInvariant; infer_instance

/-- The registry invariant: every item satisfies the item invariant. -/
def registryInvariant (st : AuctionManager) : Prop :=
  ∀ it ∈ st.items, itemInvariant it

instance (st : AuctionManager) : Decidable (registryInvariant st) := by
  unfold registryInvariant; infer_instance

/-- One bid request in a serialized per-item chain. -/
structure BidReq where
  now : Int
  itemId : String
  bidAmount : Int
  userId : String
deriving DecidableEq, Repr

/-- Sequential processing of a list of bid requests, each evaluated on
the state left by the previous one (the per-item promise chain). -/
def processSeq : List BidReq → AuctionManager → AuctionManager
  | [], st => st
  | r :: rest, st =>
      processSeq rest (executeBid r.now r.itemId r.bidAmount r.userId st).2

lemma mem_updateFirst {l : List AuctionItem} {itemId : String}
    {v x : AuctionItem} (hx : x ∈ updateFirst l itemId v) : x ∈ l ∨ x = v := by
  induction l with
  | nil => simp [updateFirst] at hx
  | cons y rest ih =>
    by_cases hy : y.id = itemId
    · simp only [updateFirst, if_pos hy] at hx
      rcases List.mem_cons.mp hx with rfl | hx'
      · exact Or.inr rfl
      · exact Or.inl (List.mem_cons_of_mem y hx')
    · simp only [updateFirst, if_neg hy] at hx
      rcases List.mem_cons.mp hx with rfl | hx'
      · exact Or.inl (List.mem_cons_self x rest)
      · rcases ih hx' with h | h
        · exact Or.inl (List.mem_cons_of_mem y h)
        · exact Or.inr h

lemma itemInvariant_resetShape (it : AuctionItem) (t : Int) :
    itemInvariant { it with currentBid := it.startingPrice,
                            currentBidder := none, auctionEndTime := t } := by
  constructor
  · exact le_refl _
  · simp

lemma mem_resetItemsFrom {rand : Nat → Nat} {now : Int} {i : Nat}
    {l : List AuctionItem} {x : AuctionItem}
    (hx : x ∈ resetItemsFrom rand now i l) : itemInvariant x := by
  induction l generalizing i with
  | nil => simp [resetItemsFrom] at hx
  | cons y rest ih =>
    simp only [resetItemsFrom] at hx
    rcases List.mem_cons.mp hx with rfl | hx'
    · exact itemInvariant_resetShape y _
    · exact ih hx'

lemma resetItemsFrom_get? (rand : Nat → Nat) (now : Int) (i : Nat)
    (l : List AuctionItem) (j : Nat) :
    (resetItemsFrom rand now i l).get? j
      = (l.get? j).map (fun it =>
          { it with currentBid := it.startingPrice, currentBidder := none,
                    auctionEndTime :=
                      now + ((rand (i + j) % 6 + 3 : Nat) : Int) * 60000 }) := by
  induction l generalizing i j with
  | nil => simp [resetItemsFrom]
  | cons y rest ih =>
    cases j with
    | zero => simp [resetItemsFrom]
    | succ j' =>
      simp only [resetItemsFrom, List.get?_cons_succ, ih (i + 1) j']
      have : i + 1 + j' = i + (j' + 1) := by omega
      rw [this]

lemma resetItemsFrom_length (rand : Nat → Nat) (now : Int) (i : Nat)
    (l : List AuctionItem) :
    (resetItemsFrom rand now i l).length = l.length := by
  induction l generalizing i with
  | nil => rfl
  | cons y rest ih => simp [resetItemsFrom, ih]

/-- `getItem` sees a consistent or improved bid after one `executeBid`:
the state is unchanged on rejection, and on success the target item's
bid strictly increases while every other lookup is untouched. -/
lemma executeBid_getItem_mono (now : Int) (itemId : String) (bidAmount : Int)
    (userId : String) (st : AuctionManager) (qid : String) (it : AuctionItem)
    (h : getItem st qid = some it) :
    ∃ it', getItem (executeBid now itemId bidAmount userId st).2 qid = some it'
      ∧ it.currentBid ≤ it'.currentBid := by
  rcases executeBid_cases now itemId bidAmount userId st with
    ⟨_, h2⟩ | ⟨_, item, hf, _, hamt, _, heq⟩
  · exact ⟨it, by rw [h2]; exact h, le_refl _⟩
  · have hid : item.id = itemId := by
      have := List.find?_some hf
      simpa using this
    by_cases hq : qid = itemId
    · subst hq
      rw [h] at hf
      cases hf
      refine ⟨acceptedItem it bidAmount userId, ?_, ?_⟩
      · rw [heq]
        exact find?_updateFirst_self (by simp [acceptedItem, hid]) h
      · simp [acceptedItem]; omega
    · refine ⟨it, ?_, le_refl _⟩
      rw [heq]
      show (updateFirst st.items itemId _).find? _ = some it
      rw [find?_updateFirst_other (by simp [acceptedItem, hid]) hq]
      exact h

lemma processSeq_getItem_mono (reqs : List BidReq) (st : AuctionManager)
    (qid : String) (it : AuctionItem) (h : getItem st qid = some it) :
    ∃ it', getItem (processSeq reqs st) qid = some it'
      ∧ it.currentBid ≤ it'.currentBid := by
  induction reqs generalizing st it with
  | nil => exact ⟨it, h, le_refl _⟩
  | cons r rest ih =>
    obtain ⟨it1, h1, hle1⟩ :=
      executeBid_getItem_mono r.now r.itemId r.bidAmount r.userId st qid it h
    obtain ⟨it2, h2, hle2⟩ := ih _ _ h1
    exact ⟨it2, h2, le_trans hle1 hle2⟩

/-!
Countdown and reset helper lemmas.
-/

lemma areAllAuctionsEnded_iff (now : Int) (st : AuctionManager) :
    areAllAuctionsEnded now st = true ↔ ∀ it ∈ st.items, it.auctionEndTime ≤ now := by
  simp [areAllAuctionsEnded, List.all_eq_true]

lemma getRestartCountdown_items (now : Int) (st : AuctionManager) :
    (getRestartCountdown now st).2.items = st.items := by
  unfold getRestartCountdown
  by_cases h : areAllAuctionsEnded now st <;> simp [h]

lemma getRestartCountdown_idem (now : Int) (st : AuctionManager) :
    getRestartCountdown now (getRestartCountdown now st).2
      = getRestartCountdown now st := by
  unfold getRestartCountdown
  by_cases h : areAllAuctionsEnded now st
  · have h2 : areAllAuctionsEnded now
        { st with allAuctionsEndTime := some (st.allAuctionsEndTime.getD now) }
        = true := by
      rw [areAllAuctionsEnded_iff] at h ⊢
      exact h
    simp [h, h2]
  · have h2 : areAllAuctionsEnded now { st with allAuctionsEndTime := none }
        = areAllAuctionsEnded now st := rfl
    simp [h, h2]

lemma collectEnded_mem_events {ex : List String} {i : String} :
    ∀ {ns : List String},
      Event.auctionEnded i ∈ (collectEnded ex ns).1 ↔ i ∈ ex ∧ i ∉ ns := by
  induction ex with
  | nil => intro ns; simp [collectEnded]
  | cons j rest ih =>
    intro ns
    by_cases hj : j ∈ ns
    · rw [show collectEnded (j :: rest) ns = collectEnded rest ns by
        simp [collectEnded, hj]]
      rw [ih]
      constructor
      · rintro ⟨h1, h2⟩; exact ⟨List.mem_cons_of_mem j h1, h2⟩
      · rintro ⟨h1, h2⟩
        rcases List.mem_cons.mp h1 with rfl | h1'
        · exact absurd hj h2
        · exact ⟨h1', h2⟩
    · rw [show collectEnded (j :: rest) ns
          = (Event.auctionEnded j :: (collectEnded rest (ns ++ [j])).1,
             (collectEnded rest (ns ++ [j])).2) by
        simp [collectEnded, hj]]
      simp only [List.mem_cons, Event.auctionEnded.injEq, ih,
        List.mem_append, List.mem_singleton]
      constructor
      · rintro (rfl | ⟨h1, h2⟩)
        · exact ⟨Or.inl rfl, hj⟩
        · exact ⟨Or.inr h1, fun hns => h2 (Or.inl hns)⟩
      · rintro ⟨rfl | h1, h2⟩
        · exact Or.inl rfl
        · by_cases hij : i = j
          · exact Or.inl hij
          · exact Or.inr ⟨h1, by tauto⟩

lemma collectEnded_mem_set {ex : List String} {j : String} :
    ∀ {ns : List String}, j ∈ (collectEnded ex ns).2 ↔ j ∈ ns ∨ j ∈ ex := by
  induction ex with
  | nil => intro ns; simp [collectEnded]
  | cons i rest ih =>
    intro ns
    by_cases hi : i ∈ ns
    · rw [show collectEnded (i :: rest) ns = collectEnded rest ns by
        simp [collectEnded, hi]]
      rw [ih]
      constructor
      · rintro (h | h)
        · exact Or.inl h
        · exact Or.inr (List.mem_cons_of_mem i h)
      · rintro (h | h)
        · exact Or.inl h
        · rcases List.mem_cons.mp h with rfl | h'
          · exact Or.inl hi
          · exact Or.inr h'
    · rw [show (collectEnded (i :: rest) ns).2 = (collectEnded rest (ns ++ [i])).2
          by simp [collectEnded, hi]]
      rw [ih]
      simp only [List.mem_append, List.mem_singleton, List.mem_cons]
      tauto

lemma collectEnded_events_shape {ex : List String} :
    ∀ {ns : List String} (e : Event), e ∈ (collectEnded ex ns).1 →
      ∃ i, e = Event.auctionEnded i := by
  induction ex with
  | nil => intro ns e he; simp [collectEnded] at he
  | cons i rest ih =>
    intro ns e he
    by_cases hi : i ∈ ns
    · rw [show collectEnded (i :: rest) ns = collectEnded rest ns by
        simp [collectEnded, hi]] at he
      exact ih e he
    · rw [show (collectEnded (i :: rest) ns).1
          = Event.auctionEnded i :: (collectEnded rest (ns ++ [i])).1 by
        simp [collectEnded, hi]] at he
      rcases List.mem_cons.mp he with rfl | he'
      · exact ⟨i, rfl⟩
      · exact ih e he'

/-- Condition under which the coordinated auto-reset fires: all items
expired, barrier recorded at least 30 seconds ago, non-empty registry. -/
def fireCondition (now : Int) (st : AuctionManager) : Prop :=
  st.items ≠ [] ∧ (∀ it ∈ st.items, it.auctionEndTime ≤ now)
    ∧ ∃ t, st.allAuctionsEndTime = some t ∧ t + 30000 ≤ now

instance (now : Int) (st : AuctionManager) : Decidable (fireCondition now st) := by
  unfold fireCondition; infer_instance

/-- Full case analysis of `autoResetExpiredAuctions`: either no
non-empty batch is produced and the items are untouched, or the fire
condition held and every item was reset and the barrier cleared. -/
lemma autoReset_cases (rand : Nat → Nat) (now : Int) (st : AuctionManager) :
    ((autoResetExpiredAuctions rand now st).1 = []
      ∧ (autoResetExpiredAuctions rand now st).2.items = st.items
      ∧ ¬ fireCondition now st)
    ∨ (fireCondition now st
      ∧ autoResetExpiredAuctions rand now st
          = (resetItemsFrom rand now 0 st.items,
             ⟨resetItemsFrom rand now 0 st.items, none⟩)) := by
  unfold autoResetExpiredAuctions
  by_cases hall : areAllAuctionsEnded now st
  · have hgc : getRestartCountdown now st
        = (some (max 0 (st.allAuctionsEndTime.getD now + 30000 - now)),
           { st with allAuctionsEndTime := some (st.allAuctionsEndTime.getD now) }) := by
      unfold getRestartCountdown
      rw [if_pos hall]
    rw [hgc]
    by_cases hpos : 0 < max 0 (st.allAuctionsEndTime.getD now + 30000 - now)
    · left
      refine ⟨by simp [hpos], by simp [hpos], ?_⟩
      rintro ⟨-, -, t, ht, hle⟩
      rw [ht] at hpos
      simp only [Option.getD_some] at hpos
      omega
    · by_cases hne : st.items = []
      · left
        refine ⟨by simp [hpos, hne, resetItemsFrom],
          by simp [hpos, hne, resetItemsFrom], ?_⟩
        rintro ⟨h, -, -⟩
        exact h hne
      · right
        have hbar : ∃ t, st.allAuctionsEndTime = some t ∧ t + 30000 ≤ now := by
          cases hb : st.allAuctionsEndTime with
          | none =>
            exfalso
            rw [hb] at hpos
            simp only [Option.getD_none] at hpos
            omega
          | some t =>
            rw [hb] at hpos
            simp only [Option.getD_some] at hpos
            exact ⟨t, rfl, by omega⟩
        refine ⟨⟨hne, (areAllAuctionsEnded_iff now st).mp hall, hbar⟩, ?_⟩
        simp [hpos]
  · have hgc : getRestartCountdown now st
        = (none, { st with allAuctionsEndTime := none }) := by
      unfold getRestartCountdown
      rw [if_neg hall]
    rw [hgc]
    left
    refine ⟨rfl, rfl, ?_⟩
    rintro ⟨-, hend, -⟩
    exact hall ((areAllAuctionsEnded_iff now st).mpr hend)

/-- The coordinated reset decision is the same whether taken on `st` or
on the state left by the tick's own earlier countdown query. -/
lemma autoReset_after_gc (rand : Nat → Nat) (now : Int) (st : AuctionManager) :
    autoResetExpiredAuctions rand now (getRestartCountdown now st).2
      = autoResetExpiredAuctions rand now st := by
  unfold autoResetExpiredAuctions
  rw [getRestartCountdown_idem]

/-- Recognizer for the batched reset event. -/
def isResetEvent : Event → Bool
  | Event.allAuctionsReset _ => true
  | _ => false

lemma areAllAuctionsEnded_gc (now : Int) (st : AuctionManager) :
    areAllAuctionsEnded now (getRestartCountdown now st).2
      = areAllAuctionsEnded now st := by
  unfold areAllAuctionsEnded
  rw [getRestartCountdown_items]

/-- The tick decomposed into its three phases: expiry events, the
countdown event and, when a batch was reset, the batched event with the
notified set cleared. -/
lemma monitorTick_parts (rand : Nat → Nat) (now : Int) (st : AuctionManager)
    (ns : List String) :
    monitorTick rand now st ns
      = ((collectEnded (getExpiredAuctions now st) ns).1
          ++ [Event.restartCountdown (areAllAuctionsEnded now st)
               (getRestartCountdown now st).1]
          ++ (if (autoResetExpiredAuctions rand now st).1 = [] then []
              else [Event.allAuctionsReset (autoResetExpiredAuctions rand now st).1]),
         (autoResetExpiredAuctions rand now st).2,
         if (autoResetExpiredAuctions rand now st).1 = [] then
           (collectEnded (getExpiredAuctions now st) ns).2
         else []) := by
  simp only [monitorTick]
  rw [autoReset_after_gc, areAllAuctionsEnded_gc]
  by_cases h : (autoResetExpiredAuctions rand now st).1 = []
  · simp [h]
  · have hlen : 0 < (autoResetExpiredAuctions rand now st).1.length :=
      List.length_pos.mpr h
    simp [h, hlen]

/-!
Concrete fixtures for witnesses and counterexamples.
-/

/-- Sample item: id "a", price floor 100, no bidder, ends at time 1000. -/
def itemA : AuctionItem := ⟨"a", "A", "", 100, 100, none, 1000, ""⟩

/-- Registry holding `itemA`, no barrier recorded. -/
def stA : AuctionManager := ⟨[itemA], none⟩

/-- Registry with a single already-expired item and a barrier recorded
at time 40. -/
def stEnded : AuctionManager := ⟨[⟨"a", "A", "", 100, 100, none, 0, ""⟩], some 40⟩

/-- Registry with a single already-expired item and no barrier. -/
def stExpired : AuctionManager := ⟨[⟨"a", "A", "", 100, 100, none, 0, ""⟩], none⟩

/-- Heap-embedding registry: one item object at address 0. -/
def cexHeapMgr : HeapMgr :=
  ⟨[⟨"a", "A", "", 100, 100, none, 1000, ""⟩], [("a", 0)], none⟩

/-!
Claim theorems.
-/

/-- C1: `executeBid` applies its rules in order with the first failing
rule winning: unknown item gives ITEM_NOT_FOUND; an ended auction gives
AUCTION_ENDED regardless of amount; an amount below `currentBid + 10`
gives BID_TOO_LOW with the required minimum in the message; the current
highest bidder is rejected with ALREADY_HIGHEST_BIDDER; otherwise the bid
succeeds and sets `currentBid = bidAmount`, `currentBidder = userId`.
In particular, on `currentBid = 100` a bid of 109 is rejected
BID_TOO_LOW and a bid of 110 from another user is accepted. -/
theorem executeBid_first_failing_rule (now : Int) (itemId : String)
    (bidAmount : Int) (userId : String) (st : AuctionManager) :
    (getItem st itemId = none →
      executeBid now itemId bidAmount userId st
        = (⟨false, "Item not found", none, some "ITEM_NOT_FOUND"⟩, st))
    ∧ ∀ item, getItem st itemId = some item →
      (item.auctionEndTime ≤ now →
        executeBid now itemId bidAmount userId st
          = (⟨false, "Auction has ended", none, some "AUCTION_ENDED"⟩, st))
      ∧ (now < item.auctionEndTime → bidAmount < item.currentBid + 10 →
        executeBid now itemId bidAmount userId st
          = (⟨false, "Bid must be at least $" ++ toString (item.currentBid + 10),
              none, some "BID_TOO_LOW"⟩, st))
      ∧ (now < item.auctionEndTime → item.currentBid + 10 ≤ bidAmount →
          item.currentBidder = some userId →
        executeBid now itemId bidAmount userId st
          = (⟨false, "You are already the highest bidder", none,
              some "ALREADY_HIGHEST_BIDDER"⟩, st))
      ∧ (now < item.auctionEndTime → item.currentBid + 10 ≤ bidAmount →
          item.currentBidder ≠ some userId →
        executeBid now itemId bidAmount userId st
          = (⟨true, "Bid placed successfully",
              some (acceptedItem item bidAmount userId), none⟩,
             ⟨updateFirst st.items itemId (acceptedItem item bidAmount userId),
              st.allAuctionsEndTime⟩))
      ∧ (now < item.auctionEndTime → item.currentBid = 100 → bidAmount = 109 →
        (executeBid now itemId bidAmount userId st).1.error = some "BID_TOO_LOW")
      ∧ (now < item.auctionEndTime → item.currentBid = 100 → bidAmount = 110 →
          item.currentBidder ≠ some userId →
        (executeBid now itemId bidAmount userId st).1.success = true) := by
  constructor
  · intro hf
    unfold executeBid
    rw [hf]
  · intro item hf
    refine ⟨fun h1 => ?_, fun h1 h2 => ?_, fun h1 h2 h3 => ?_,
      fun h1 h2 h3 => ?_, fun h1 h2 h3 => ?_, fun h1 h2 h3 h4 => ?_⟩
    · simp only [executeBid, hf]; rw [if_pos h1]
    · simp only [executeBid, hf]; rw [if_neg (by omega), if_pos h2]
    · simp only [executeBid, hf]
      rw [if_neg (by omega), if_neg (by omega), if_pos h3]
    · simp only [executeBid, hf]
      rw [if_neg (by omega), if_neg (by omega), if_neg h3]
      rfl
    · simp only [executeBid, hf]
      rw [if_neg (by omega), if_pos (by omega)]
    · simp only [executeBid, hf]
      rw [if_neg (by omega), if_neg (by omega), if_neg h4]

theorem executeBid_first_failing_rule_witness :
    (executeBid 0 "a" 109 "u" stA).1.error = some "BID_TOO_LOW"
    ∧ (executeBid 0 "a" 110 "u" stA).1.success = true := by
  constructor
  · exact ((executeBid_first_failing_rule 0 "a" 109 "u" stA).2 itemA
      (by decide)).2.2.2.2.1 (by decide) (by decide) (by decide)
  · exact ((executeBid_first_failing_rule 0 "a" 110 "u" stA).2 itemA
      (by decide)).2.2.2.2.2 (by decide) (by decide) (by decide) (by decide)

lemma itemInvariant_accepted {item : AuctionItem}
    (h1 : item.startingPrice ≤ item.currentBid) {bidAmount : Int}
    (hamt : item.currentBid + 10 ≤ bidAmount) (userId : String) :
    itemInvariant (acceptedItem item bidAmount userId) := by
  unfold itemInvariant acceptedItem
  dsimp only
  refine ⟨by omega, ?_, ?_⟩
  · intro _
    omega
  · intro _
    simp

/-- C2: every registry operation preserves the data-model invariant
(`currentBid ≥ startingPrice`; `currentBidder` non-null iff
`currentBid > startingPrice`), an accepted bid raises the item's
`currentBid` by at least the minimum increment 10, a rejected bid leaves
the state untouched, and over any serialized bid sequence `currentBid`
is monotonically non-decreasing. -/
theorem registry_operations_preserve_invariant (st : AuctionManager)
    (h : registryInvariant st) (rand : Nat → Nat) (now : Int) (itemId : String)
    (bidAmount : Int) (userId : String) (reqs : List BidReq) :
    registryInvariant (executeBid now itemId bidAmount userId st).2
    ∧ registryInvariant (getRestartCountdown now st).2
    ∧ registryInvariant (autoResetExpiredAuctions rand now st).2
    ∧ registryInvariant (resetAuction now itemId st).2
    ∧ registryInvariant (resetAllAuctions rand now st).2
    ∧ ((executeBid now itemId bidAmount userId st).1.success = true →
        ∃ it it', getItem st itemId = some it
          ∧ getItem (executeBid now itemId bidAmount userId st).2 itemId = some it'
          ∧ it'.currentBid = bidAmount ∧ it.currentBid + 10 ≤ it'.currentBid)
    ∧ ((executeBid now itemId bidAmount userId st).1.success = false →
        (executeBid now itemId bidAmount userId st).2 = st)
    ∧ (∀ it, getItem st itemId = some it →
        ∃ it', getItem (processSeq reqs st) itemId = some it'
          ∧ it.currentBid ≤ it'.currentBid) := by
  have hbid : registryInvariant (executeBid now itemId bidAmount userId st).2 := by
    rcases executeBid_cases now itemId bidAmount userId st with
      ⟨-, h2⟩ | ⟨-, item, hf, -, hamt, -, heq⟩
    · rw [h2]; exact h
    · rw [heq]
      intro x hx
      rcases mem_updateFirst hx with hmem | rfl
      · exact h x hmem
      · have hitem := h item (List.mem_of_find?_eq_some hf)
        exact itemInvariant_accepted hitem.1 hamt userId
  refine ⟨hbid, ?_, ?_, ?_, ?_, ?_, ?_, ?_⟩
  · intro x hx
    rw [getRestartCountdown_items] at hx
    exact h x hx
  · rcases autoReset_cases rand now st with ⟨-, h2, -⟩ | ⟨-, heq⟩
    · intro x hx
      rw [h2] at hx
      exact h x hx
    · rw [heq]
      intro x hx
      exact mem_resetItemsFrom hx
  · unfold resetAuction
    cases hf : getItem st itemId with
    | none => exact h
    | some item =>
      intro x hx
      simp only [] at hx
      rcases mem_updateFirst hx with hmem | rfl
      · exact h x hmem
      · exact itemInvariant_resetShape item _
  · intro x hx
    exact mem_resetItemsFrom hx
  · intro hs
    rcases executeBid_cases now itemId bidAmount userId st with
      ⟨hfail, -⟩ | ⟨-, item, hf, -, hamt, -, heq⟩
    · rw [hs] at hfail; cases hfail
    · have hid : item.id = itemId := by
        have := List.find?_some hf
        simpa using this
      refine ⟨item, acceptedItem item bidAmount userId, hf, ?_, rfl, ?_⟩
      · rw [heq]
        exact find?_updateFirst_self (by simp [acceptedItem, hid]) hf
      · simp only [acceptedItem]
        omega
  · intro hfail
    rcases executeBid_cases now itemId bidAmount userId st with
      ⟨-, h2⟩ | ⟨hs, -⟩
    · exact h2
    · rw [hfail] at hs; cases hs
  · intro it hit
    exact processSeq_getItem_mono reqs st itemId it hit

theorem registry_operations_preserve_invariant_witness :
    registryInvariant stA
    ∧ registryInvariant (executeBid 0 "a" 110 "u" stA).2
    ∧ registryInvariant (resetAllAuctions (fun _ => 0) 0 stA).2 := by
  refine ⟨by decide, ?_, ?_⟩
  · exact (registry_operations_preserve_invariant stA (by decide)
      (fun _ => 0) 0 "a" 110 "u" []).1
  · exact (registry_operations_preserve_invariant stA (by decide)
      (fun _ => 0) 0 "a" 110 "u" []).2.2.2.2.1

/-- C3: bid evaluation is atomic — every rejection leaves the registry
completely unchanged, and a success performs exactly one mutation: the
target item's `currentBid` and `currentBidder` are replaced, every other
item, the item's other fields, and the barrier are untouched, and the
update is visible to subsequent lookups. -/
theorem executeBid_rejection_atomic (now : Int) (itemId : String)
    (bidAmount : Int) (userId : String) (st : AuctionManager) :
    ((executeBid now itemId bidAmount userId st).1.success = false →
      (executeBid now itemId bidAmount userId st).2 = st)
    ∧ ((executeBid now itemId bidAmount userId st).1.success = true →
      ∃ pre item post, st.items = pre ++ item :: post
        ∧ (∀ p ∈ pre, p.id ≠ itemId) ∧ item.id = itemId
        ∧ (executeBid now itemId bidAmount userId st).2
            = ⟨pre ++ acceptedItem item bidAmount userId :: post,
               st.allAuctionsEndTime⟩
        ∧ getItem (executeBid now itemId bidAmount userId st).2 itemId
            = some (acceptedItem item bidAmount userId)) := by
  constructor
  · intro hfail
    rcases executeBid_cases now itemId bidAmount userId st with
      ⟨-, h2⟩ | ⟨hs, -⟩
    · exact h2
    · rw [hfail] at hs; cases hs
  · intro hs
    rcases executeBid_cases now itemId bidAmount userId st with
      ⟨hfail, -⟩ | ⟨-, item, hf, -, -, -, heq⟩
    · rw [hs] at hfail; cases hfail
    · obtain ⟨pre, post, hsplit, hpre, hid⟩ := find?_decomp hf
      refine ⟨pre, item, post, hsplit, hpre, hid, ?_, ?_⟩
      · rw [heq]
        simp only []
        rw [hsplit, updateFirst_append hpre hid]
      · rw [heq]
        exact find?_updateFirst_self (by simp [acceptedItem, hid]) hf

theorem executeBid_rejection_atomic_witness :
    (executeBid 0 "a" 109 "u" stA).2 = stA
    ∧ ∃ pre item post, stA.items = pre ++ item :: post
        ∧ (∀ p ∈ pre, p.id ≠ "a") ∧ item.id = "a"
        ∧ (executeBid 0 "a" 110 "u" stA).2
            = ⟨pre ++ acceptedItem item 110 "u" :: post,
               stA.allAuctionsEndTime⟩
        ∧ getItem (executeBid 0 "a" 110 "u" stA).2 "a"
            = some (acceptedItem item 110 "u") :=
  ⟨(executeBid_rejection_atomic 0 "a" 109 "u" stA).1 (by decide),
   (executeBid_rejection_atomic 0 "a" 110 "u" stA).2 (by decide)⟩

/-- C5: `getRestartCountdown` clears the barrier and returns null while
any item is active; when every item is expired it records the barrier on
first observation (`allEndedAt = now`) and returns
`max 0 ((allEndedAt + 30000) - now)`. -/
theorem getRestartCountdown_rules (now : Int) (st : AuctionManager) :
    ((∃ it ∈ st.items, now < it.auctionEndTime) →
      getRestartCountdown now st = (none, ⟨st.items, none⟩))
    ∧ ((∀ it ∈ st.items, it.auctionEndTime ≤ now) →
      getRestartCountdown now st
        = (some (max 0 (st.allAuctionsEndTime.getD now + 30000 - now)),
           ⟨st.items, some (st.allAuctionsEndTime.getD now)⟩))
    ∧ ((∀ it ∈ st.items, it.auctionEndTime ≤ now) →
        st.allAuctionsEndTime = none →
      (getRestartCountdown now st).2.allAuctionsEndTime = some now) := by
  refine ⟨fun hactive => ?_, fun hended => ?_, fun hended hbar => ?_⟩
  · have hall : areAllAuctionsEnded now st = false := by
      rcases hactive with ⟨it, hit, hlt⟩
      rcases hb : areAllAuctionsEnded now st with _ | _
      · rfl
      · have := (areAllAuctionsEnded_iff now st).mp hb it hit
        omega
    unfold getRestartCountdown
    rw [hall]
    rfl
  · have hall : areAllAuctionsEnded now st = true :=
      (areAllAuctionsEnded_iff now st).mpr hended
    unfold getRestartCountdown
    rw [hall]
    rfl
  · have hall : areAllAuctionsEnded now st = true :=
      (areAllAuctionsEnded_iff now st).mpr hended
    unfold getRestartCountdown
    rw [hall, hbar]
    rfl

theorem getRestartCountdown_rules_witness :
    getRestartCountdown 5 stA = (none, ⟨stA.items, none⟩)
    ∧ getRestartCountdown 100 stEnded
        = (some 29940, ⟨stEnded.items, some 40⟩) := by
  constructor
  · exact (getRestartCountdown_rules 5 stA).1 ⟨itemA, by decide, by decide⟩
  · exact ((getRestartCountdown_rules 100 stEnded).2.1 (by decide)).trans
      (by decide)

/-- C9: the manual all-item reset succeeds from every state without
touching the barrier: every item gets `currentBid = startingPrice`,
`currentBidder = null` and `auctionEndTime = now + m minutes` for a
whole `m` between 3 and 8 (hence strictly in the future), and snapshots
of all items are returned. -/
theorem resetAllAuctions_rules (rand : Nat → Nat) (now : Int)
    (st : AuctionManager) :
    (resetAllAuctions rand now st).2.allAuctionsEndTime = st.allAuctionsEndTime
    ∧ (resetAllAuctions rand now st).1 = (resetAllAuctions rand now st).2.items
    ∧ (resetAllAuctions rand now st).1.length = st.items.length
    ∧ ∀ j it, st.items.get? j = some it →
        ∃ m : Nat, 3 ≤ m ∧ m ≤ 8
          ∧ (resetAllAuctions rand now st).1.get? j
              = some (resetShape it (now + (m : Int) * 60000))
          ∧ now < now + (m : Int) * 60000 := by
  refine ⟨rfl, rfl, resetItemsFrom_length rand now 0 st.items, ?_⟩
  intro j it hj
  refine ⟨rand j % 6 + 3, by omega, by omega, ?_, by omega⟩
  show (resetItemsFrom rand now 0 st.items).get? j = _
  rw [resetItemsFrom_get?, hj]
  simp [resetShape, Nat.zero_add]

theorem resetAllAuctions_rules_witness :
    ∃ m : Nat, 3 ≤ m ∧ m ≤ 8
      ∧ (resetAllAuctions (fun _ => 5) 0 stA).1.get? 0
          = some (resetShape itemA (0 + (m : Int) * 60000))
      ∧ (0 : Int) < 0 + (m : Int) * 60000 :=
  (resetAllAuctions_rules (fun _ => 5) 0 stA).2.2.2 0 itemA (by decide)

/-- C10: the single-item manual reset returns false and changes nothing
for an unknown id; for a known id it returns true and resets exactly
that item to its starting price with no bidder and a fixed
`now + 300000` end time, leaving every other item and the barrier
untouched. -/
theorem resetAuction_rules (now : Int) (itemId : String)
    (st : AuctionManager) :
    (getItem st itemId = none → resetAuction now itemId st = (false, st))
    ∧ ∀ item, getItem st itemId = some item →
        (resetAuction now itemId st).1 = true
        ∧ ∃ pre post, st.items = pre ++ item :: post
            ∧ (∀ p ∈ pre, p.id ≠ itemId) ∧ item.id = itemId
            ∧ (resetAuction now itemId st).2
                = ⟨pre ++ resetShape item (now + 300000) :: post,
                   st.allAuctionsEndTime⟩ := by
  constructor
  · intro hf
    unfold resetAuction
    rw [hf]
  · intro item hf
    obtain ⟨pre, post, hsplit, hpre, hid⟩ := find?_decomp hf
    constructor
    · unfold resetAuction
      rw [hf]
    · refine ⟨pre, post, hsplit, hpre, hid, ?_⟩
      unfold resetAuction
      rw [hf]
      dsimp only
      rw [hsplit, updateFirst_append hpre hid]
      rfl

theorem resetAuction_rules_witness :
    resetAuction 0 "b" stA = (false, stA)
    ∧ (resetAuction 0 "a" stA).1 = true :=
  ⟨(resetAuction_rules 0 "b" stA).1 (by decide),
   ((resetAuction_rules 0 "a" stA).2 itemA (by decide)).1⟩

/-- C8 counterexample: the chain boundary converts a fault to a failed
result whose error field is the fault's own message (here "boom"), not
the INTERNAL_ERROR classifier, so the error field of a BidResult does
not always lie in the claimed five-element set. -/
theorem chain_fault_error_classifier_cex :
    (chainCatch (EvalOutcome.fault "boom" stA)).1.error = some "boom"
    ∧ (chainCatch (EvalOutcome.fault "boom" stA)).1.error
        ∉ ([some "ITEM_NOT_FOUND", some "AUCTION_ENDED", some "BID_TOO_LOW",
            some "ALREADY_HIGHEST_BIDDER", some "INTERNAL_ERROR"] :
           List (Option String)) := by
  decide

/-- C8 amended: a fault is caught at the chain boundary and converted to
a failed BidResult with message "Internal server error" and error equal
to the fault's own message, leaving the carried registry state as it
was; a normal evaluation passes through the boundary unchanged, and its
error classifier always lies in the four business-rule codes (or none on
success). INTERNAL_ERROR is emitted only by the transport-layer catch,
not by the chain boundary. -/
theorem chain_fault_handling (msg : String) (st : AuctionManager)
    (now : Int) (itemId : String) (bidAmount : Int) (userId : String) :
    chainCatch (EvalOutcome.fault msg st)
      = (⟨false, "Internal server error", none, some msg⟩, st)
    ∧ chainCatch (EvalOutcome.ok (executeBid now itemId bidAmount userId st).1
        (executeBid now itemId bidAmount userId st).2)
      = executeBid now itemId bidAmount userId st
    ∧ (executeBid now itemId bidAmount userId st).1.error
        ∈ ([none, some "ITEM_NOT_FOUND", some "AUCTION_ENDED",
            some "BID_TOO_LOW", some "ALREADY_HIGHEST_BIDDER"] :
           List (Option String)) := by
  refine ⟨rfl, rfl, ?_⟩
  unfold executeBid
  cases getItem st itemId with
  | none => simp
  | some item =>
    by_cases h1 : item.auctionEndTime ≤ now
    · simp [h1]
    · by_cases h2 : bidAmount < item.currentBid + 10
      · simp [h1, h2]
      · by_cases h3 : item.currentBidder = some userId
        · simp [h1, h2, h3]
        · simp [h1, h2, h3]

/-- Registry in firing position: single expired item carrying a bid,
barrier recorded at time 40 (30 seconds before time 30040). -/
def stFire : AuctionManager :=
  ⟨[⟨"a", "A", "", 100, 150, some "u", 0, ""⟩], some 40⟩

/-- C6 counterexample: with every item expired but no barrier recorded,
the auto-reset returns an empty batch (the fire condition — 30 seconds
since the barrier was recorded — cannot hold), yet the state is changed:
the barrier timestamp is recorded by the embedded countdown query.  So
"returns an empty batch and changes nothing unless ..." fails. -/
theorem autoReset_empty_batch_mutates_cex :
    (autoResetExpiredAuctions (fun _ => 0) 100 stExpired).1 = []
    ∧ stExpired.allAuctionsEndTime = none
    ∧ (autoResetExpiredAuctions (fun _ => 0) 100 stExpired).2 ≠ stExpired := by
  decide

/-- C6 amended: the auto-reset leaves every item unchanged and returns an
empty batch unless every item is expired and the barrier was recorded at
least 30 seconds ago (though the barrier timestamp itself may be
recorded or cleared by the embedded countdown query even on the
empty-batch path); when it fires, every item is simultaneously reset to
its starting price with no bidder and a fresh end time of 3 to 8 whole
minutes (strictly in the future), the barrier is cleared, the batch of
all reset items is returned, the tick emits it as one batched reset
event, and the notified set is cleared. -/
theorem autoReset_coordinated_rules (rand : Nat → Nat) (now : Int)
    (st : AuctionManager) (ns : List String) :
    ((autoResetExpiredAuctions rand now st).1 = [] →
      (autoResetExpiredAuctions rand now st).2.items = st.items)
    ∧ ((autoResetExpiredAuctions rand now st).1 ≠ [] ↔ fireCondition now st)
    ∧ ((autoResetExpiredAuctions rand now st).1 ≠ [] →
        (autoResetExpiredAuctions rand now st).2.allAuctionsEndTime = none
        ∧ (autoResetExpiredAuctions rand now st).1
            = (autoResetExpiredAuctions rand now st).2.items
        ∧ (∀ j it, st.items.get? j = some it →
            ∃ m : Nat, 3 ≤ m ∧ m ≤ 8
              ∧ (autoResetExpiredAuctions rand now st).2.items.get? j
                  = some (resetShape it (now + (m : Int) * 60000))
              ∧ now < now + (m : Int) * 60000)
        ∧ (monitorTick rand now st ns).2.2 = []
        ∧ (monitorTick rand now st ns).1.filter isResetEvent
            = [Event.allAuctionsReset (autoResetExpiredAuctions rand now st).1]) := by
  rcases autoReset_cases rand now st with ⟨hemp, hitems, hnofire⟩ | ⟨hfire, heq⟩
  · refine ⟨fun _ => hitems, ⟨fun hne => absurd hemp hne, fun hf => absurd hf hnofire⟩,
      fun hne => absurd hemp hne⟩
  · have hne : (autoResetExpiredAuctions rand now st).1 ≠ [] := by
      rw [heq]
      intro hnil
      have hlen := resetItemsFrom_length rand now 0 st.items
      rw [show (resetItemsFrom rand now 0 st.items, (⟨resetItemsFrom rand now 0 st.items, none⟩ : AuctionManager)).1 = resetItemsFrom rand now 0 st.items from rfl] at hnil
      rw [hnil] at hlen
      exact hfire.1 (List.length_eq_zero.mp hlen.symm)
    refine ⟨fun h => absurd h hne, ⟨fun _ => hfire, fun _ => hne⟩, fun _ => ?_⟩
    refine ⟨by rw [heq], by rw [heq], ?_, ?_, ?_⟩
    · intro j it hj
      refine ⟨rand j % 6 + 3, by omega, by omega, ?_, by omega⟩
      rw [heq]
      show (resetItemsFrom rand now 0 st.items).get? j = _
      rw [resetItemsFrom_get?, hj]
      simp [resetShape, Nat.zero_add]
    · rw [monitorTick_parts]
      simp [hne]
    · rw [monitorTick_parts]
      dsimp only
      rw [if_neg hne]
      have hshape : ∀ e ∈ (collectEnded (getExpiredAuctions now st) ns).1,
          ¬ isResetEvent e = true := by
        intro e he
        obtain ⟨i, rfl⟩ := collectEnded_events_shape e he
        simp [isResetEvent]
      rw [List.filter_append, List.filter_append]
      rw [List.filter_eq_nil_iff.mpr hshape]
      simp [isResetEvent]

theorem autoReset_coordinated_rules_witness :
    (autoResetExpiredAuctions (fun _ => 1) 30040 stFire).2.allAuctionsEndTime = none
    ∧ (monitorTick (fun _ => 1) 30040 stFire []).2.2 = [] := by
  have h := (autoReset_coordinated_rules (fun _ => 1) 30040 stFire []).2.2
    (by decide)
  exact ⟨h.1, h.2.2.2.1⟩

/-- C7 amended: in every tick an auction-ended event for an item is
emitted exactly when the item is expired and not yet in the notified
set; the set then absorbs all currently expired ids, so the next tick
never re-emits for an item notified earlier (as long as no coordinated
reset fired in between); the notified set is cleared only by the
coordinated auto-reset (the manual reset does not touch it), after which
an item that expires again is notified afresh. -/
theorem auctionEnded_notified_once (rand : Nat → Nat) (now : Int)
    (st : AuctionManager) (ns : List String) (i : String) :
    (Event.auctionEnded i ∈ (monitorTick rand now st ns).1 ↔
      i ∈ getExpiredAuctions now st ∧ i ∉ ns)
    ∧ ((autoResetExpiredAuctions rand now st).1 = [] →
        ∀ j, j ∈ (monitorTick rand now st ns).2.2 ↔
          j ∈ ns ∨ j ∈ getExpiredAuctions now st)
    ∧ ((autoResetExpiredAuctions rand now st).1 ≠ [] →
        (monitorTick rand now st ns).2.2 = [])
    ∧ ((autoResetExpiredAuctions rand now st).1 = [] →
        i ∈ getExpiredAuctions now st →
        ∀ rand2 now2,
          Event.auctionEnded i ∉
            (monitorTick rand2 now2 (monitorTick rand now st ns).2.1
              (monitorTick rand now st ns).2.2).1)
    ∧ (∀ rand2 now2 st2,
        Event.auctionEnded i ∈ (monitorTick rand2 now2 st2 []).1 ↔
          i ∈ getExpiredAuctions now2 st2) := by
  have hmem : ∀ (rand' : Nat → Nat) (now' : Int) (st' : AuctionManager)
      (ns' : List String),
      Event.auctionEnded i ∈ (monitorTick rand' now' st' ns').1 ↔
        i ∈ getExpiredAuctions now' st' ∧ i ∉ ns' := by
    intro rand' now' st' ns'
    rw [monitorTick_parts]
    dsimp only
    rw [List.mem_append, List.mem_append]
    rw [collectEnded_mem_events]
    constructor
    · rintro ((h | h) | h)
      · exact h
      · simp at h
      · by_cases hc : (autoResetExpiredAuctions rand' now' st').1 = [] <;>
          simp [hc] at h
    · intro h
      exact Or.inl (Or.inl h)
  refine ⟨hmem rand now st ns, fun hnil j => ?_, fun hne => ?_, ?_, ?_⟩
  · rw [monitorTick_parts]
    dsimp only
    rw [if_pos hnil]
    rw [collectEnded_mem_set]
  · rw [monitorTick_parts]
    dsimp only
    rw [if_neg hne]
  · intro hnil hexp rand2 now2
    rw [hmem]
    rintro ⟨-, habs⟩
    apply habs
    rw [monitorTick_parts]
    dsimp only
    rw [if_pos hnil]
    rw [collectEnded_mem_set]
    exact Or.inr hexp
  · intro rand2 now2 st2
    rw [hmem]
    simp

/-- Random stream fixture: always draw 0 (3-minute resets). -/
def tickRand : Nat → Nat := fun _ => 0

/-- Trace fixture for the manual-reset scenario: one item that first
expires at time 100. -/
def c7St0 : AuctionManager := ⟨[⟨"a", "A", "", 100, 100, none, 100, ""⟩], none⟩

/-- Tick at time 150: the item has newly expired. -/
def c7Tick1 : List Event × AuctionManager × List String :=
  monitorTick tickRand 150 c7St0 []

/-- Manual reset at time 200 (new end time 180200). -/
def c7Manual : List AuctionItem × AuctionManager :=
  resetAllAuctions tickRand 200 c7Tick1.2.1

/-- Tick at time 300: the item is active again. -/
def c7Tick2 : List Event × AuctionManager × List String :=
  monitorTick tickRand 300 c7Manual.2 c7Tick1.2.2

/-- Tick at time 180300: the item has expired for the second time. -/
def c7Tick3 : List Event × AuctionManager × List String :=
  monitorTick tickRand 180300 c7Tick2.2.1 c7Tick2.2.2

/-- C7 counterexample: the item's first expiry is notified, a manual
reset then makes it active again, but when it expires a second time the
tick emits no auction-ended event — the manual reset did not clear the
notified set, contradicting "cleared on reset so that after any reset
(coordinated or manual) an item that expires again triggers a new
notification". -/
theorem manual_reset_no_renotify_cex :
    Event.auctionEnded "a" ∈ c7Tick1.1
    ∧ (∀ it ∈ c7Manual.2.items, (300 : Int) < it.auctionEndTime)
    ∧ (∀ it ∈ c7Tick2.2.1.items, it.auctionEndTime ≤ (180300 : Int))
    ∧ Event.auctionEnded "a" ∉ c7Tick3.1 := by
  decide

theorem auctionEnded_notified_once_witness :
    Event.auctionEnded "a" ∈ (monitorTick tickRand 150 c7St0 []).1
    ∧ Event.auctionEnded "a" ∉ (monitorTick tickRand 151
        (monitorTick tickRand 150 c7St0 []).2.1
        (monitorTick tickRand 150 c7St0 []).2.2).1 := by
  constructor
  · exact ((auctionEnded_notified_once tickRand 150 c7St0 [] "a").1).mpr
      ⟨by decide, by decide⟩
  · exact (auctionEnded_notified_once tickRand 150 c7St0 [] "a").2.2.2.1
      (by decide) (by decide) tickRand 151

/-!
Heap-embedding lemmas for the snapshot claims.
-/

lemma executeBidH_cases (now : Int) (itemId : String) (bidAmount : Int)
    (userId : String) (m : HeapMgr) :
    ((executeBidH now itemId bidAmount userId m).2 = m
      ∧ (executeBidH now itemId bidAmount userId m).1.item = none)
    ∨ (∃ r item, getItemH m itemId = some r ∧ heapRead m.heap r = some item
        ∧ executeBidH now itemId bidAmount userId m
          = (⟨true, "Bid placed successfully",
              some (heapWrite m.heap r (acceptedItem item bidAmount userId)).length,
              none⟩,
             ⟨heapWrite m.heap r (acceptedItem item bidAmount userId)
                ++ [acceptedItem item bidAmount userId],
              m.itemRefs, m.allAuctionsEndTime⟩)) := by
  unfold executeBidH
  cases hr : getItemH m itemId with
  | none => exact Or.inl ⟨rfl, rfl⟩
  | some r =>
    dsimp only
    cases hread : heapRead m.heap r with
    | none => exact Or.inl ⟨rfl, rfl⟩
    | some item =>
      by_cases h1 : item.auctionEndTime ≤ now
      · exact Or.inl ⟨by simp [h1], by simp [h1]⟩
      · by_cases h2 : bidAmount < item.currentBid + 10
        · exact Or.inl ⟨by simp [h1, h2], by simp [h1, h2]⟩
        · by_cases h3 : item.currentBidder = some userId
          · exact Or.inl ⟨by simp [h1, h2, h3], by simp [h1, h2, h3]⟩
          · exact Or.inr ⟨r, item, rfl, hread,
              by simp [h1, h2, h3, acceptedItem]⟩

lemma executeBidH_itemRefs (now : Int) (itemId : String) (bidAmount : Int)
    (userId : String) (m : HeapMgr) :
    (executeBidH now itemId bidAmount userId m).2.itemRefs = m.itemRefs := by
  rcases executeBidH_cases now itemId bidAmount userId m with
    ⟨h, -⟩ | ⟨r, item, -, -, heq⟩
  · rw [h]
  · rw [heq]

lemma getItemH_mem {m : HeapMgr} {itemId : String} {r : Nat}
    (h : getItemH m itemId = some r) : ∃ p ∈ m.itemRefs, p.2 = r := by
  unfold getItemH at h
  rcases Option.map_eq_some'.mp h with ⟨p, hp, hpr⟩
  exact ⟨p, List.mem_of_find?_eq_some hp, hpr⟩

/-- C4 counterexample: `getAllItems` hands out the registry's live
object reference (address 0); a subsequent successful bid mutates the
object behind that previously returned reference, so the returned value
is not an independent snapshot. -/
theorem read_surface_live_reference_cex :
    getAllItemsH cexHeapMgr = [0]
    ∧ heapRead cexHeapMgr.heap 0
        = some ⟨"a", "A", "", 100, 100, none, 1000, ""⟩
    ∧ (executeBidH 0 "a" 110 "u" cexHeapMgr).1.success = true
    ∧ heapRead (executeBidH 0 "a" 110 "u" cexHeapMgr).2.heap 0
        ≠ heapRead cexHeapMgr.heap 0 := by
  decide

/-- C4 amended: `getAll`/`getById` return live references into the
registry's heap (mutations are visible through them, as the
counterexample shows), but the item carried by a successful BidResult is
an independent snapshot: it lives at a fresh address no registry entry
points to, it is readable, later bid evaluations never alter it, and
overwriting it never alters any registry item. -/
theorem bidResult_snapshot_independent (now : Int) (itemId : String)
    (bidAmount : Int) (userId : String) (m : HeapMgr) (hwf : heapWF m)
    (snapRef : Nat)
    (hs : (executeBidH now itemId bidAmount userId m).1.item = some snapRef) :
    (∀ p ∈ (executeBidH now itemId bidAmount userId m).2.itemRefs,
        p.2 ≠ snapRef)
    ∧ (heapRead (executeBidH now itemId bidAmount userId m).2.heap snapRef).isSome
    ∧ (∀ now2 id2 amt2 uid2,
        heapRead (executeBidH now2 id2 amt2 uid2
            (executeBidH now itemId bidAmount userId m).2).2.heap snapRef
          = heapRead (executeBidH now itemId bidAmount userId m).2.heap snapRef)
    ∧ (∀ v, ∀ p ∈ (executeBidH now itemId bidAmount userId m).2.itemRefs,
        heapRead (heapWrite (executeBidH now itemId bidAmount userId m).2.heap
            snapRef v) p.2
          = heapRead (executeBidH now itemId bidAmount userId m).2.heap p.2) := by
  rcases executeBidH_cases now itemId bidAmount userId m with
    ⟨-, hnone⟩ | ⟨r, item, hr, hread, heq⟩
  · rw [hnone] at hs; cases hs
  · have hsnap : snapRef = m.heap.length := by
      rw [heq] at hs
      simp only [Option.some.injEq] at hs
      rw [← hs]
      simp [heapWrite]
    have hrefs : (executeBidH now itemId bidAmount userId m).2.itemRefs
        = m.itemRefs := executeBidH_itemRefs now itemId bidAmount userId m
    have hfresh : ∀ p ∈ m.itemRefs, p.2 ≠ snapRef := by
      intro p hp
      have := hwf p hp
      omega
    have hlen2 : (executeBidH now itemId bidAmount userId m).2.heap.length
        = m.heap.length + 1 := by
      rw [heq]
      simp [heapWrite]
    have hreadSnap : heapRead (executeBidH now itemId bidAmount userId m).2.heap
        snapRef = some (acceptedItem item bidAmount userId) := by
      rw [heq, hsnap]
      show ((m.heap.set r _) ++ [acceptedItem item bidAmount userId]).get?
          m.heap.length = _
      rw [show m.heap.length = (m.heap.set r (acceptedItem item bidAmount userId)).length
        from (List.length_set m.heap r _).symm]
      exact List.get?_concat_length _ _
    refine ⟨?_, ?_, ?_, ?_⟩
    · rw [hrefs]
      exact hfresh
    · rw [hreadSnap]
      rfl
    · intro now2 id2 amt2 uid2
      rcases executeBidH_cases now2 id2 amt2 uid2
          (executeBidH now itemId bidAmount userId m).2 with
        ⟨heq2, -⟩ | ⟨r2, item2, hr2, hread2, heq2⟩
      · rw [heq2]
      · rcases getItemH_mem hr2 with ⟨p2, hp2, hp2r⟩
        rw [hrefs] at hp2
        have hr2lt : r2 < m.heap.length := by
          have := hwf p2 hp2
          omega
        rw [heq2]
        show ((_ : List AuctionItem) ++ _).get? snapRef = _
        rw [List.get?_append]
        · show ((executeBidH now itemId bidAmount userId m).2.heap.set r2 _).get?
              snapRef = _
          exact List.get?_set_ne _ _ (by omega)
        · simp only [heapWrite, List.length_set, hlen2]
          omega
    · intro v p hp
      rw [hrefs] at hp
      show ((executeBidH now itemId bidAmount userId m).2.heap.set snapRef v).get?
          p.2 = _
      exact List.get?_set_ne _ _ (fun h => hfresh p hp h.symm)

theorem bidResult_snapshot_independent_witness :
    heapWF cexHeapMgr
    ∧ (heapRead (executeBidH 0 "a" 110 "u" cexHeapMgr).2.heap 1).isSome := by
  refine ⟨by decide, ?_⟩
  exact (bidResult_snapshot_independent 0 "a" 110 "u" cexHeapMgr (by decide) 1
    (by decide)).2.1
